import Mathlib

/-!
Verification of the svgomg job-coordination and result-caching core.

This file gives a shallow embedding in Lean 4 of the coordination core of the
svgomg page script (`WorkerMessenger`, `SvgFile`, `Svgo` job sequencing,
`ResultsCache`, the settings fingerprint of `Settings.getSettings`, and the
compression-cycle driver `MainController._compressSvg`), together with proofs
and refutations of the specified properties.

Conventions of the embedding:
* JavaScript promises are modelled by their settled outcome; an operation that
  resolves or rejects pending promises returns the list of `(id, Outcome)`
  settlements it performed, in order.
* The off-thread worker is modelled as a generation number (`Option Nat`):
  `none` means no worker is running; starting a worker consumes a fresh
  generation from a counter.
* JavaScript sparse arrays are modelled as `List (Option α)` where `none` is a
  hole, with explicit `jsGet`/`jsSet` helpers matching indexed read/write.
* Strings that are only concatenated and compared are modelled as `List Char`
  where that eases reasoning (the fingerprint); otherwise as `String`.
-/

set_option autoImplicit false

namespace Svgomg

/-!
Promise outcomes.  `WorkerMessenger._fulfillPending` either resolves an entry
with a result or rejects it with an error object.  `abort` rejects with
`new DOMException('AbortError', 'AbortError')` (message and name both
`AbortError`); a worker-reported failure rejects with
`new Error(event.data.error)` (name `Error`, message the worker's string).
-/

/-- Settled outcome of one pending promise. -/
inductive Outcome where
  /-- The entry's `resolve` was called with the worker's result payload. -/
  | resolved (result : Option String)
  /-- The entry's `reject` was called with an error of the given name and
  message. -/
  | rejected (name : String) (message : String)
deriving DecidableEq, Repr

/-- The rejection value used by the abort sweep:
`new DOMException('AbortError', 'AbortError')`. -/
def abortError : Outcome := .rejected "AbortError" "AbortError"

/-- State of a `WorkerMessenger` instance: the request-id counter
(`this._requestId`), the ids with a pending entry (`this._pending`, in
registration order), the running worker generation (`this._worker`, `none`
when terminated or not yet started), and the counter supplying fresh
generations. -/
structure WorkerMessenger where
  requestId : Nat
  pending : List Nat
  worker : Option Nat
  nextGen : Nat
deriving DecidableEq, Repr

/-- Effects performed by one `WorkerMessenger` operation. -/
structure ChannelEffects where
  /-- Pending entries settled (and removed from the map), in order. -/
  settled : List (Nat × Outcome)
  /-- Worker generations terminated. -/
  terminated : List Nat
deriving DecidableEq, Repr

namespace WorkerMessenger

/-- A fresh `WorkerMessenger` as built by the constructor: request counter 0,
no pending entries, no worker started. -/
def init : WorkerMessenger := ⟨0, [], none, 0⟩

/-- Model of `_startWorker()`: `this._worker = new Worker(this._url)` —
install a fresh worker generation. -/
def startWorker (s : WorkerMessenger) : WorkerMessenger :=
  { s with worker := some s.nextGen, nextGen := s.nextGen + 1 }

/-- Model of `_abortPending()`: for every key of `this._pending`, call
`_fulfillPending(key, null, new DOMException('AbortError', 'AbortError'))`.
Every entry is removed and rejected with `AbortError`. -/
def abortPending (s : WorkerMessenger) : WorkerMessenger × List (Nat × Outcome) :=
  ({ s with pending := [] }, s.pending.map fun id => (id, abortError))

/-- Model of `release()`: `_abortPending()`, then terminate the worker (if
any) and set `this._worker = null`.  No new worker is started. -/
def release (s : WorkerMessenger) : WorkerMessenger × ChannelEffects :=
  let r := abortPending s
  ({ r.1 with worker := none }, ⟨r.2, s.worker.toList⟩)

/-- Model of `abort()`: no-op when nothing is pending; otherwise
`_abortPending()`, terminate the worker if one is running, and
`_startWorker()`. -/
def abort (s : WorkerMessenger) : WorkerMessenger × ChannelEffects :=
  if s.pending = [] then (s, ⟨[], []⟩)
  else
    let r := abortPending s
    (startWorker r.1, ⟨r.2, s.worker.toList⟩)

/-- Model of `requestResponse(message)`: assign `++this._requestId` as the
message id, register a pending entry for it, start a worker if none is
running, and post the message.  Returns the new state, the assigned id, and
the generation the message was posted to. -/
def requestResponse (s : WorkerMessenger) : WorkerMessenger × Nat × Nat :=
  let id := s.requestId + 1
  let s1 : WorkerMessenger :=
    { s with requestId := id, pending := s.pending ++ [id] }
  let s2 := if s1.worker = none then startWorker s1 else s1
  (s2, id, s2.worker.getD 0)

/-- Model of `_fulfillPending(id, result, error)`: if no entry is registered
for `id`, log and drop; otherwise remove the entry and reject it when `error`
is truthy, else resolve it with `result`. -/
def fulfillPending (s : WorkerMessenger) (id : Nat) (result : Option String)
    (error : Option String) : WorkerMessenger × List (Nat × Outcome) :=
  if id ∈ s.pending then
    ({ s with pending := s.pending.erase id },
      [(id, match error with
            | some e => .rejected "Error" e
            | none => .resolved result)])
  else (s, [])

/-- An inbound worker message `event.data`: `{id, result, error}`.  Here
`id = 0` models a missing or falsy id. -/
structure WorkerResponse where
  id : Nat
  result : Option String
  error : Option String
deriving DecidableEq, Repr

/-- JavaScript truthiness of `event.data.error && new Error(event.data.error)`:
an absent or empty error string yields no error object. -/
def truthyError : Option String → Option String
  | some e => if e = "" then none else some e
  | none => none

/-- Model of `_onMessage(event)`: drop messages whose `id` is falsy, otherwise
`_fulfillPending(event.data.id, event.data.result,
event.data.error && new Error(event.data.error))`. -/
def onMessage (s : WorkerMessenger) (m : WorkerResponse) :
    WorkerMessenger × List (Nat × Outcome) :=
  if m.id = 0 then (s, [])
  else fulfillPending s m.id m.result (truthyError m.error)

end WorkerMessenger

/-!
The `SvgFile` class wraps a result text with a memoized gzip size and a lazily
created, revocable object URL.  The gzip round trip is modelled by its settled
outcome `Except String Nat` (the rejection message, or `response.byteLength`);
the memo field stores the promise, so it stores that outcome whether fulfilled
or rejected.  Object URLs are modelled as `Nat` handles.
-/

instance : DecidableEq (Except String Nat) := fun a b =>
  match a, b with
  | .ok x, .ok y =>
    if h : x = y then .isTrue (by rw [h]) else .isFalse (by simp [h])
  | .error x, .error y =>
    if h : x = y then .isTrue (by rw [h]) else .isFalse (by simp [h])
  | .ok _, .error _ => .isFalse (by simp)
  | .error _, .ok _ => .isFalse (by simp)

/-- State of an `SvgFile` artifact: `this.text.length`, the memoized promise
`this._compressedSize` (`none` until the first compressed-size request), and
the lazily created object URL `this._url`. -/
structure SvgFile where
  textLen : Nat
  compressedSize : Option (Except String Nat)
  url : Option Nat
deriving DecidableEq, Repr

namespace SvgFile

/-- Model of `size({compress})`: without `compress`, return
`this.text.length` synchronously.  With `compress`, issue
`gzip.compress(this.text)` only if no memoized promise exists, store the
resulting promise, and return it.  `gz` is the settled outcome the gzip round
trip would produce for this text; the result is
`(outcome returned, new state, number of gzip requests issued)`. -/
def size (gz : Except String Nat) (compress : Bool) (f : SvgFile) :
    Except String Nat × SvgFile × Nat :=
  if !compress then (.ok f.textLen, f, 0)
  else
    match f.compressedSize with
    | some r => (r, f, 0)
    | none => (gz, { f with compressedSize := some gz }, 1)

/-- Repeated `size({compress})` calls (one flag per call, same gzip outcome
oracle), accumulating the total number of gzip requests issued. -/
def sizeRuns (gz : Except String Nat) (calls : List Bool) (f : SvgFile) :
    SvgFile × Nat :=
  match calls with
  | [] => (f, 0)
  | c :: cs =>
    let r := size gz c f
    let rest := sizeRuns gz cs r.2.1
    (rest.1, r.2.2 + rest.2)

/-- Model of `get url()`: create the object URL on first access (`fresh`
supplies the handle `URL.createObjectURL` would mint), reuse it afterwards. -/
def getUrl (fresh : Nat) (f : SvgFile) : Nat × SvgFile :=
  match f.url with
  | some u => (u, f)
  | none => (fresh, { f with url := some fresh })

/-- Model of `release()`: `if (!this._url) return;
URL.revokeObjectURL(this._url)`.  Returns the state afterwards and the list
of handles revoked by this call.  Note the source does not clear
`this._url`. -/
def release (f : SvgFile) : SvgFile × List Nat :=
  match f.url with
  | none => (f, [])
  | some u => (f, [u])

end SvgFile

/-!
The `ResultsCache` is a fixed-capacity ring buffer over two parallel
JavaScript arrays plus a write cursor.  JavaScript arrays are modelled as
`List (Option α)` (holes are `none`); artifacts are modelled by `Nat` ids,
and `add` reports the artifacts on which it invoked `release()`.
-/

/-- Indexed read `l[i]` on a JavaScript array: out of bounds or a hole gives
`undefined`. -/
def jsGet {α : Type} (l : List (Option α)) (i : Nat) : Option α :=
  l.getD i none

/-- Indexed write `l[i] = v` on a JavaScript array: in bounds overwrites,
past the end extends the array (padding with holes). -/
def jsSet {α : Type} (l : List (Option α)) (i : Nat) (v : α) : List (Option α) :=
  if i < l.length then l.set i (some v)
  else l ++ List.replicate (i - l.length) none ++ [some v]

/-- State of a `ResultsCache`: capacity `this._size`, the parallel arrays
`this._fingerprints` and `this._items`, and the write cursor `this._index`. -/
structure ResultsCache where
  size : Nat
  fingerprints : List (Option String)
  items : List (Option Nat)
  index : Nat
deriving DecidableEq, Repr

namespace ResultsCache

/-- Model of `purge()`: reset both arrays and the cursor. -/
def purge (c : ResultsCache) : ResultsCache :=
  { c with fingerprints := [], items := [], index := 0 }

/-- The constructor: store the capacity and `purge()`. -/
def empty (n : Nat) : ResultsCache := ⟨n, [], [], 0⟩

/-- Model of `add(fingerprint, svgFile)`: release the item at the cursor if
one is there, overwrite both arrays at the cursor, advance the cursor modulo
the capacity.  Returns the new state and the artifacts released. -/
def add (c : ResultsCache) (fp : String) (item : Nat) :
    ResultsCache × List Nat :=
  (⟨c.size, jsSet c.fingerprints c.index fp, jsSet c.items c.index item,
      (c.index + 1) % c.size⟩,
    (jsGet c.items c.index).toList)

/-- A sequence of `add` calls, accumulating every release performed. -/
def addAll (c : ResultsCache) : List (String × Nat) → ResultsCache × List Nat
  | [] => (c, [])
  | (fp, item) :: rest =>
    let r := c.add fp item
    let r2 := r.1.addAll rest
    (r2.1, r.2 ++ r2.2)

/-- Model of `match(fingerprint)`:
`this._items[this._fingerprints.indexOf(fingerprint)]` — `indexOf` yields the
first matching index or `-1`, and indexing at `-1` yields `undefined`. -/
def matchFp (c : ResultsCache) (fp : String) : Option Nat :=
  match c.fingerprints.findIdx? (· = some fp) with
  | some i => jsGet c.items i
  | none => none

end ResultsCache

/-!
The settings fingerprint.  `Settings.getSettings()` walks the global inputs
and the per-plugin inputs.  Global inputs are form elements: checkboxes
contribute `Number(inputEl.checked)` to the fingerprint, any other input (the
range sliders) contributes the value wrapped in a pair of pipes; inputs named
`gzip` or `original` are skipped.  Every plugin input is a checkbox
contributing `Number(inputEl.checked)`.  The fingerprint is the `','`-join of
these pieces.  Pieces are modelled as `List Char` so the join is plain list
concatenation.
-/

/-- The state of one global input: a checkbox with its checked state, or any
other input (the range sliders) with its string value. -/
inductive InputKind where
  | checkbox (checked : Bool)
  | slider (value : List Char)
deriving DecidableEq, Repr

/-- A global settings input: its `name` attribute and its state. -/
structure GlobalInput where
  name : String
  kind : InputKind
deriving DecidableEq, Repr

/-- A per-plugin settings input: its `name` attribute and checked state. -/
structure PluginInput where
  name : String
  checked : Bool
deriving DecidableEq, Repr

/-- Conversion `String(Number(checked))` as it appears in the joined
fingerprint. -/
def numberOfBool (b : Bool) : List Char := [if b then '1' else '0']

/-- The fingerprint piece contributed by one (non-skipped) global input. -/
def fingerprintElem : InputKind → List Char
  | .checkbox c => numberOfBool c
  | .slider v => '|' :: v ++ ['|']

/-- The list of fingerprint pieces pushed by `getSettings()`: one per global
input not named `gzip` or `original`, then one per plugin input. -/
def fingerprintElems (globals : List GlobalInput) (plugins : List PluginInput) :
    List (List Char) :=
  (globals.filterMap fun g =>
    if g.name = "gzip" ∨ g.name = "original" then none
    else some (fingerprintElem g.kind))
  ++ plugins.map fun p => numberOfBool p.checked

/-- JavaScript `Array.prototype.join(',')`. -/
def joinComma : List (List Char) → List Char
  | [] => []
  | [x] => x
  | x :: y :: ys => x ++ ',' :: joinComma (y :: ys)

/-- The value `output.fingerprint` computed by `Settings.getSettings()`. -/
def fingerprint (globals : List GlobalInput) (plugins : List PluginInput) :
    List Char :=
  joinComma (fingerprintElems globals plugins)

/-!
The compression pipeline of `MainController._compressSvg`.  On a cache miss
(and with `settings.original` unset) the controller may apply the text-cleanup
transforms `removeUnusedTextCode` / `removeUnusualAttributes` before the first
`svgo.process` pass, and — iff at least one of the two cleanup settings is
active — applies them again to the first pass's output and runs a second
`svgo.process` pass on the transformed text.  The optimizer and the two
transforms are abstract text functions here; the pipeline returns the final
text together with the list of texts fed to `svgo.process`, in order.
-/

/-- The cleanup-setting flags of a settings object (`remUnusedTextCode`,
`remUnusualAttributes`). -/
structure CleanupSettings where
  remUnusedTextCode : Bool
  remUnusualAttributes : Bool
deriving DecidableEq, Repr

/-- The transform sequence applied both before the first pass and between the
passes: `removeUnusedTextCode` if requested, then `removeUnusualAttributes`
if requested. -/
def cleanupTransform (remText remAttrs : List Char → List Char)
    (s : CleanupSettings) (t : List Char) : List Char :=
  let t1 := if s.remUnusedTextCode then remText t else t
  if s.remUnusualAttributes then remAttrs t1 else t1

/-- The cache-miss compression pipeline inside the `try` block of
`_compressSvg`: pre-transform the input, run `svgo.process`, and iff a
cleanup setting is active, transform the first result and run `svgo.process`
again.  Returns `(final result text, inputs fed to svgo.process)`. -/
def compressPasses (process remText remAttrs : List Char → List Char)
    (s : CleanupSettings) (input : List Char) :
    List Char × List (List Char) :=
  let svgText0 := if s.remUnusedTextCode then remText input else input
  let svgText1 := if s.remUnusualAttributes then remAttrs svgText0 else svgText0
  let result0 := process svgText1
  if s.remUnusedTextCode || s.remUnusualAttributes then
    let t0 := if s.remUnusedTextCode then remText result0 else result0
    let t1 := if s.remUnusualAttributes then remAttrs t0 else t0
    (process t1, [svgText1, t1])
  else (result0, [svgText1])

/-!
The compression-cycle driver.  `MainController._compressSvg` interleaves with
itself only at `await` points; between suspensions, handlers run to
completion.  We model a run of the controller as a trace of atomic events
over the set of cycles (one cycle per `_compressSvg` call, identified by
`Nat` indices, which double as the `Math.random()` job tokens — all
distinct):

* `start i` — the call's synchronous prefix: store cycle `i`'s token in
  `this._latestCompressJobId` and run `svgo.abort()`, which rejects every
  pending `svgo` request with `AbortError`; the rejected cycles' `catch`
  blocks return without displaying or caching, so those cycles are discarded.
  The call then suspends at `await svgo.abort()`.
* `resume i` — the continuation after that `await`: the stale-token check,
  then the `settings.original` short-circuit, the cache lookup, or the
  registration of the first `svgo.process` request.
* `deliver i` — the worker answers cycle `i`'s in-flight request; the
  continuation runs to the next `await` (the second pass's request) or to
  completion (`_updateForFile` plus `cache.add` — the *commit*).  Promise
  continuations are microtasks, so no new cycle can start in between:
  delivery and continuation form one atomic step.
-/

/-- Phase of a cycle in `_compressSvg`. -/
inductive CyclePhase where
  /-- The call has not happened yet. -/
  | idle
  /-- Suspended at `await svgo.abort()`; token check not yet run. -/
  | afterAbort
  /-- First `svgo.process` request in flight. -/
  | awaitingPass1
  /-- Second `svgo.process` request in flight. -/
  | awaitingPass2
  /-- The cycle's result reached the display (and, on the miss path, the
  cache). -/
  | committed
  /-- The cycle returned without displaying or caching (stale token or
  `AbortError`). -/
  | discarded
deriving DecidableEq, Repr

/-- Branch of `_compressSvg` a cycle takes once its token check passes. -/
inductive CycleKind where
  /-- Flag `settings.original` is set: display the input item, no job, no
  cache. -/
  | showOriginal
  /-- The fingerprint hits the cache: display the cached artifact. -/
  | cacheHit
  /-- Cache miss with no cleanup setting: one `svgo.process` pass. -/
  | missOnePass
  /-- Cache miss with a cleanup setting active: two `svgo.process` passes. -/
  | missTwoPass
deriving DecidableEq, Repr

/-- The controller state the trace acts on: `this._latestCompressJobId`
(`none` models the initial `0`, before any token is issued) and each cycle's
phase. -/
structure OrchestratorState where
  latest : Option Nat
  phase : Nat → CyclePhase

/-- The state before any `_compressSvg` call. -/
def orchInit : OrchestratorState := ⟨none, fun _ => .idle⟩

/-- A trace event: a new `_compressSvg` call starts, a suspended call resumes
after `await svgo.abort()`, or the worker answers a cycle's in-flight
request. -/
inductive OrchEvent where
  | start (i : Nat)
  | resume (i : Nat)
  | deliver (i : Nat)
deriving DecidableEq, Repr

/-- Effect of `svgo.abort()` on the cycles: every cycle with an in-flight
`svgo.process` request has that request rejected with `AbortError`, so its
`catch` block discards it. -/
def sweepAborted (p : Nat → CyclePhase) : Nat → CyclePhase := fun j =>
  match p j with
  | .awaitingPass1 => .discarded
  | .awaitingPass2 => .discarded
  | ph => ph

/-- One atomic step of the compression-cycle driver; `kind` fixes the branch
each cycle takes (its settings and the cache state at its token check).
Ill-formed events (starting a non-idle cycle, resuming or delivering to a
cycle not in the matching phase) are no-ops. -/
def orchStep (kind : Nat → CycleKind) (s : OrchestratorState) :
    OrchEvent → OrchestratorState
  | .start i =>
    if s.phase i = .idle then
      ⟨some i, Function.update (sweepAborted s.phase) i .afterAbort⟩
    else s
  | .resume i =>
    if s.phase i = .afterAbort then
      if s.latest ≠ some i then
        ⟨s.latest, Function.update s.phase i .discarded⟩
      else
        match kind i with
        | .showOriginal => ⟨s.latest, Function.update s.phase i .committed⟩
        | .cacheHit => ⟨s.latest, Function.update s.phase i .committed⟩
        | .missOnePass => ⟨s.latest, Function.update s.phase i .awaitingPass1⟩
        | .missTwoPass => ⟨s.latest, Function.update s.phase i .awaitingPass1⟩
    else s
  | .deliver i =>
    match s.phase i with
    | .awaitingPass1 =>
      if kind i = .missTwoPass then
        ⟨s.latest, Function.update s.phase i .awaitingPass2⟩
      else ⟨s.latest, Function.update s.phase i .committed⟩
    | .awaitingPass2 => ⟨s.latest, Function.update s.phase i .committed⟩
    | _ => s

/-- Run a trace of events. -/
def orchRun (kind : Nat → CycleKind) (s : OrchestratorState) :
    List OrchEvent → OrchestratorState
  | [] => s
  | e :: es => orchRun kind (orchStep kind s e) es

/-- Cycle `i` has started and its asynchronous round trip has not settled:
it is suspended at the abort await or has a process request in flight. -/
def InFlight (s : OrchestratorState) (i : Nat) : Prop :=
  s.phase i = .afterAbort ∨ s.phase i = .awaitingPass1 ∨
    s.phase i = .awaitingPass2

instance (s : OrchestratorState) (i : Nat) : Decidable (InFlight s i) := by
  unfold InFlight; infer_instance

/-- Cycle `i` can no longer commit: it is already discarded, or it has not
yet run its token check and its token is no longer the latest. -/
def Doomed (s : OrchestratorState) (i : Nat) : Prop :=
  (s.phase i = .afterAbort ∧ s.latest ≠ some i) ∨ s.phase i = .discarded

/-!
Theorems.  Each claim of the specification is settled below, in order of the
component it concerns.
-/

/-- C2.  For every `WorkerMessenger` state, `abort` with an empty pending map
changes nothing (no settlement, no termination, no restart); with a nonempty
pending map it rejects every pending entry with `AbortError` (none resolved,
none left pending), terminates the current worker generation when one is
running, installs the fresh generation `s.nextGen`, and a subsequent
`requestResponse` posts to that fresh generation with its new id pending. -/
theorem abort_contract (s : WorkerMessenger) :
    (s.pending = [] → WorkerMessenger.abort s = (s, ⟨[], []⟩)) ∧
    (s.pending ≠ [] →
      (WorkerMessenger.abort s).2.settled
          = s.pending.map (fun id => (id, abortError)) ∧
      (WorkerMessenger.abort s).1.pending = [] ∧
      (WorkerMessenger.abort s).2.terminated = s.worker.toList ∧
      (WorkerMessenger.abort s).1.worker = some s.nextGen ∧
      (WorkerMessenger.abort s).1.nextGen = s.nextGen + 1 ∧
      (WorkerMessenger.requestResponse (WorkerMessenger.abort s).1).2.2
          = s.nextGen ∧
      (WorkerMessenger.requestResponse (WorkerMessenger.abort s).1).2.1
          ∈ (WorkerMessenger.requestResponse (WorkerMessenger.abort s).1).1.pending) := by
  constructor
  · intro h
    simp [WorkerMessenger.abort, h]
  · intro h
    simp [WorkerMessenger.abort, h, WorkerMessenger.abortPending,
      WorkerMessenger.startWorker, WorkerMessenger.requestResponse]

/-- Witness for C2: the empty-pending no-op and the nonempty-pending sweep at
concrete states. -/
theorem abort_contract_witness :
    WorkerMessenger.abort ⟨3, [], some 0, 1⟩ = (⟨3, [], some 0, 1⟩, ⟨[], []⟩) ∧
    (WorkerMessenger.abort ⟨2, [1, 2], some 0, 1⟩).2.settled
        = [(1, abortError), (2, abortError)] :=
  ⟨(abort_contract ⟨3, [], some 0, 1⟩).1 rfl,
    ((abort_contract ⟨2, [1, 2], some 0, 1⟩).2 (by decide)).1⟩

/-- C4 counterexample.  A message that carries both a result and an error
string can still resolve the entry: with the empty error string, the
expression `event.data.error && new Error(event.data.error)` is falsy, so
`_fulfillPending` takes the resolve path — the matching entry is resolved
with the result, not rejected, refuting "the error takes precedence and the
entry is rejected" for this reachable protocol input. -/
theorem onMessage_empty_error_resolves :
    WorkerMessenger.onMessage ⟨7, [7], some 0, 1⟩ ⟨7, some "r", some ""⟩
      = (⟨7, [], some 0, 1⟩, [(7, .resolved (some "r"))]) := by
  rfl

/-- C4 (amended).  An inbound message whose id matches a pending entry and
which carries a truthy (nonempty) error string causes exactly that entry to
be removed and rejected with an error carrying the worker's error string —
even when a result is also present, the error takes precedence — and every
other pending entry stays pending.  (With an empty error string the entry is
resolved instead, as the counterexample shows.) -/
theorem onMessage_error_correlation (s : WorkerMessenger)
    (m : WorkerMessenger.WorkerResponse) (e : String)
    (hid : m.id ∈ s.pending) (hid0 : m.id ≠ 0) (herr : m.error = some e)
    (hne : e ≠ "") :
    WorkerMessenger.onMessage s m
        = ({ s with pending := s.pending.erase m.id },
            [(m.id, .rejected "Error" e)]) ∧
    ∀ j ∈ s.pending, j ≠ m.id →
      j ∈ (WorkerMessenger.onMessage s m).1.pending := by
  have h1 : WorkerMessenger.onMessage s m
      = ({ s with pending := s.pending.erase m.id },
          [(m.id, .rejected "Error" e)]) := by
    simp [WorkerMessenger.onMessage, WorkerMessenger.fulfillPending,
      WorkerMessenger.truthyError, hid, hid0, herr, hne]
  refine ⟨h1, fun j hj hne' => ?_⟩
  rw [h1]
  exact (List.mem_erase_of_ne hne').mpr hj

/-- Witness for C4: the message `{id: 7, result: "r", error: "bad input"}`
against pending ids `[7, 8]` rejects entry 7 with the worker's string and
leaves entry 8 pending. -/
theorem onMessage_error_correlation_witness :
    WorkerMessenger.onMessage ⟨8, [7, 8], some 0, 1⟩
        ⟨7, some "r", some "bad input"⟩
      = (⟨8, [8], some 0, 1⟩, [(7, .rejected "Error" "bad input")]) ∧
    8 ∈ (WorkerMessenger.onMessage ⟨8, [7, 8], some 0, 1⟩
        ⟨7, some "r", some "bad input"⟩).1.pending := by
  have h := onMessage_error_correlation ⟨8, [7, 8], some 0, 1⟩
    ⟨7, some "r", some "bad input"⟩ "bad input" (by decide) (by decide) rfl
    (by decide)
  exact ⟨by simpa using h.1, h.2 8 (by decide) (by decide)⟩

/-- C5 counterexample.  After `release()` the instance is not unusable: a
subsequent `requestResponse` lazily starts a fresh worker generation, posts
to it, and registers a new pending entry — the send succeeds. -/
theorem release_not_final :
    ((WorkerMessenger.requestResponse
        (WorkerMessenger.release ⟨1, [1], some 0, 1⟩).1).1.worker = some 1) ∧
    2 ∈ (WorkerMessenger.requestResponse
        (WorkerMessenger.release ⟨1, [1], some 0, 1⟩).1).1.pending := by
  decide

/-- C5 (amended).  `release` rejects all pending entries with `AbortError`,
terminates the worker generation when one is running, and starts no new one
itself; however the instance remains usable — a later `requestResponse`
lazily starts the next fresh generation. -/
theorem release_contract (s : WorkerMessenger) :
    (WorkerMessenger.release s).2.settled
        = s.pending.map (fun id => (id, abortError)) ∧
    (WorkerMessenger.release s).1.pending = [] ∧
    (WorkerMessenger.release s).2.terminated = s.worker.toList ∧
    (WorkerMessenger.release s).1.worker = none ∧
    (WorkerMessenger.requestResponse (WorkerMessenger.release s).1).1.worker
        = some s.nextGen := by
  simp [WorkerMessenger.release, WorkerMessenger.abortPending,
    WorkerMessenger.requestResponse, WorkerMessenger.startWorker]

/-- C9 counterexample.  `SvgFile.release` has no disposed guard: on an
artifact whose URL handle 5 was created, a second `release()` revokes handle
5 a second time instead of being a no-op. -/
theorem double_release_revokes_twice :
    (SvgFile.release ⟨10, none, some 5⟩).2 = [5] ∧
    (SvgFile.release (SvgFile.release ⟨10, none, some 5⟩).1).2 = [5] := by
  decide

/-- C9 (amended).  `release()` is a no-op when no URL was ever created;
when a URL was created it revokes exactly that handle, but it leaves the
`_url` field in place (there is no disposed guard), so a second `release()`
revokes the same handle again. -/
theorem release_url_behavior (f : SvgFile) :
    (f.url = none → SvgFile.release f = (f, [])) ∧
    (∀ u, f.url = some u →
      (SvgFile.release f).2 = [u] ∧ (SvgFile.release f).1 = f ∧
      (SvgFile.release (SvgFile.release f).1).2 = [u]) := by
  constructor
  · intro h; simp [SvgFile.release, h]
  · intro u h; simp [SvgFile.release, h]

/-- Witness for C9 (amended): both branches at concrete artifacts. -/
theorem release_url_behavior_witness :
    SvgFile.release ⟨10, none, none⟩ = (⟨10, none, none⟩, []) ∧
    (SvgFile.release ⟨10, none, some 5⟩).2 = [5] :=
  ⟨(release_url_behavior ⟨10, none, none⟩).1 rfl,
    ((release_url_behavior ⟨10, none, some 5⟩).2 5 rfl).1⟩

/-- Helper for C10: once a compressed-size promise is memoized, any sequence
of further `size` calls issues no gzip request at all. -/
theorem sizeRuns_of_memo (gz : Except String Nat) (calls : List Bool)
    (f : SvgFile) (r : Except String Nat) (h : f.compressedSize = some r) :
    SvgFile.sizeRuns gz calls f = (f, 0) := by
  induction calls with
  | nil => rfl
  | cons c cs ih =>
    cases c <;> simp [SvgFile.sizeRuns, SvgFile.size, h, ih]

/-- C10.  `size {compress := false}` returns the text length with no gzip
request and no state change; starting from a fresh artifact, any sequence of
`size` calls issues at most one gzip request in total; and when the first
gzip request fails, every later `size {compress := true}` call returns the
same error without issuing a new request. -/
theorem size_memoized (gz : Except String Nat) (f : SvgFile) :
    (∀ g : Except String Nat, SvgFile.size g false f = (.ok f.textLen, f, 0)) ∧
    (f.compressedSize = none → ∀ calls : List Bool,
      (SvgFile.sizeRuns gz calls f).2 ≤ 1) ∧
    (∀ e, f.compressedSize = none → gz = .error e →
      ∀ g : Except String Nat,
        (SvgFile.size g true (SvgFile.size gz true f).2.1).1 = .error e ∧
        (SvgFile.size g true (SvgFile.size gz true f).2.1).2.2 = 0) := by
  refine ⟨fun g => rfl, ?_, ?_⟩
  · intro hf calls
    induction calls with
    | nil => simp [SvgFile.sizeRuns]
    | cons c cs ih =>
      cases c
      · simpa [SvgFile.sizeRuns, SvgFile.size] using ih
      · have hm := sizeRuns_of_memo gz cs
          { f with compressedSize := some gz } gz rfl
        simp [SvgFile.sizeRuns, SvgFile.size, hf, hm]
  · intro e hf hgz g
    simp [SvgFile.size, hf, hgz]

/-- Helper: reading a JavaScript array at or past its length gives
`undefined`. -/
theorem jsGet_ge {α : Type} (l : List (Option α)) (i : Nat)
    (h : l.length ≤ i) : jsGet l i = none :=
  List.getD_eq_default l none h

/-- Helper: writing a JavaScript array at its length appends. -/
theorem jsSet_length {α : Type} (l : List (Option α)) (v : α) :
    jsSet l l.length v = l ++ [some v] := by
  simp [jsSet]

/-- Helper: a run of `add` calls that fits inside the capacity only appends —
it releases nothing and fills the arrays in write order. -/
theorem addAll_fill (n : Nat) (ps : List (String × Nat)) :
    ∀ qs : List (String × Nat), qs.length + ps.length ≤ n →
    ResultsCache.addAll
        ⟨n, qs.map (fun q => some q.1), qs.map (fun q => some q.2),
          qs.length % n⟩ ps
      = (⟨n, (qs ++ ps).map (fun q => some q.1),
            (qs ++ ps).map (fun q => some q.2), (qs ++ ps).length % n⟩, []) := by
  induction ps with
  | nil => intro qs _; simp [ResultsCache.addAll]
  | cons p ps ih =>
    intro qs hlen
    have hq : qs.length < n := by simp [List.length_cons] at hlen; omega
    have hmod : qs.length % n = qs.length := Nat.mod_eq_of_lt hq
    have hget : jsGet (qs.map (fun q => some q.2)) qs.length = none :=
      jsGet_ge _ _ (by simp)
    have hset1 : jsSet (qs.map (fun q => some q.1)) qs.length p.1
        = (qs ++ [p]).map (fun q => some q.1) := by
      have := jsSet_length (qs.map (fun q => some q.1)) p.1
      simpa using this
    have hset2 : jsSet (qs.map (fun q => some q.2)) qs.length p.2
        = (qs ++ [p]).map (fun q => some q.2) := by
      have := jsSet_length (qs.map (fun q => some q.2)) p.2
      simpa using this
    have hnext : (qs.length + 1) % n = (qs ++ [p]).length % n := by simp
    have hrec := ih (qs ++ [p])
      (by simp only [List.length_append, List.length_cons, List.length_nil]
            at hlen ⊢
          omega)
    cases p with
    | mk fp item =>
      simp only [ResultsCache.addAll, ResultsCache.add, hmod, hget, hset1,
        hset2, hnext, Option.toList_none, List.nil_append] at *
      rw [hrec]
      simp

/-- Helper: `addAll` distributes over list append. -/
theorem addAll_append (c : ResultsCache) (as bs : List (String × Nat)) :
    c.addAll (as ++ bs)
      = (((c.addAll as).1.addAll bs).1,
          (c.addAll as).2 ++ ((c.addAll as).1.addAll bs).2) := by
  induction as generalizing c with
  | nil => simp [ResultsCache.addAll]
  | cons a as ih =>
    cases a with
    | mk fp item => simp [ResultsCache.addAll, ih]

/-- Helper: `addAll` from a freshly purged cache, within capacity, fills in
write order and releases nothing. -/
theorem addAll_fill0 (n : Nat) (ps : List (String × Nat))
    (h : ps.length ≤ n) :
    (ResultsCache.empty n).addAll ps
      = (⟨n, ps.map (fun q => some q.1), ps.map (fun q => some q.2),
            ps.length % n⟩, []) := by
  have hfill := addAll_fill n ps [] (by simpa using h)
  simpa [ResultsCache.empty] using hfill

/-- C3.  Starting from an empty cache of capacity `n > 0`, performing `n + 1`
`add` calls whose first fingerprint does not recur causes `release()` to be
invoked exactly once over the whole run, namely on the first-added artifact
(the cursor wraps and the `n+1`-st `add` releases the slot it overwrites),
and `match` on the first fingerprint afterwards returns `undefined`. -/
theorem cache_eviction (n : Nat) (f0 : String) (a0 : Nat)
    (rest : List (String × Nat)) (hn : 0 < n) (hlen : rest.length = n)
    (hf : f0 ∉ rest.map Prod.fst) :
    ((ResultsCache.empty n).addAll ((f0, a0) :: rest)).2 = [a0] ∧
    ((ResultsCache.empty n).addAll ((f0, a0) :: rest)).1.matchFp f0 = none := by
  have hne : rest ≠ [] := by
    intro h; rw [h] at hlen; simp at hlen; omega
  obtain ⟨ys, last, hrest⟩ : ∃ ys last, rest = ys ++ [last] :=
    ⟨rest.dropLast, rest.getLast hne, (List.dropLast_concat_getLast hne).symm⟩
  obtain ⟨lf, la⟩ := last
  subst hrest
  have hys : ys.length + 1 = n := by simpa using hlen
  -- the first n adds only fill the (empty) buffer
  have h1 := addAll_fill0 n ((f0, a0) :: ys) (by simp; omega)
  have hmod : ((f0, a0) :: ys).length % n = 0 := by
    rw [List.length_cons, hys, Nat.mod_self]
  rw [hmod] at h1
  have hsplit : ((f0, a0) :: (ys ++ [(lf, la)]) : List (String × Nat))
      = ((f0, a0) :: ys) ++ [(lf, la)] := by simp
  rw [hsplit, addAll_append, h1]
  -- the n+1-st add wraps to slot 0 and releases the first artifact
  have hget : jsGet (some a0 :: ys.map (fun q => some q.2)) 0 = some a0 := by
    simp [jsGet, List.getD]
  have hset : jsSet (some f0 :: ys.map (fun q => some q.1)) 0 lf
      = some lf :: ys.map (fun q => some q.1) := by
    simp [jsSet]
  -- the first fingerprint no longer occurs anywhere
  have hnone : (some lf :: ys.map (fun q => some q.1)).findIdx?
      (· = some f0) = none := by
    rw [List.findIdx?_eq_none_iff]
    intro x hx
    simp only [List.mem_cons, List.mem_map] at hx
    simp only [decide_eq_false_iff_not]
    intro hxeq
    subst hxeq
    apply hf
    rcases hx with heq | ⟨q, hq, hqx⟩
    · have h0 : f0 = lf := by simpa using heq
      rw [List.map_append]
      exact List.mem_append_right _ (by simp [h0])
    · have h0 : q.1 = f0 := by simpa using hqx
      rw [List.map_append]
      exact List.mem_append_left _ (List.mem_map.mpr ⟨q, hq, h0⟩)
  constructor
  · simp [ResultsCache.addAll, ResultsCache.add, hget]
  · simp [ResultsCache.addAll, ResultsCache.add, hset, ResultsCache.matchFp,
      hnone]

/-- Witness for C3: capacity 2, three adds with distinct fingerprints — only
the first artifact is released, and its fingerprint no longer matches. -/
theorem cache_eviction_witness :
    ((ResultsCache.empty 2).addAll [("a", 0), ("b", 1), ("c", 2)]).2 = [0] ∧
    ((ResultsCache.empty 2).addAll
        [("a", 0), ("b", 1), ("c", 2)]).1.matchFp "a" = none :=
  cache_eviction 2 "a" 0 [("b", 1), ("c", 2)] (by decide) rfl (by decide)

/-- Witness for C10: a failing first gzip request is memoized — the second
compressed-size call returns the same error and issues no retry. -/
theorem size_memoized_witness :
    SvgFile.size (.ok 9) false ⟨4, none, none⟩ = (.ok 4, ⟨4, none, none⟩, 0) ∧
    (SvgFile.sizeRuns (.error "boom") [true, true, false, true]
        ⟨4, none, none⟩).2 ≤ 1 ∧
    (SvgFile.size (.ok 9) true
        (SvgFile.size (.error "boom") true ⟨4, none, none⟩).2.1).1
      = .error "boom" := by
  have h := size_memoized (.error "boom") ⟨4, none, none⟩
  exact ⟨h.1 (.ok 9), h.2.1 rfl [true, true, false, true],
    (h.2.2 "boom" rfl rfl (.ok 9)).1⟩

/-- C6.  In the cache-miss pipeline, when at least one text-cleanup setting
is active exactly two compression passes run and the second pass's input is
the cleanup transform of the first pass's output; when neither is active
exactly one pass runs; never more than two. -/
theorem compress_two_pass (process remText remAttrs : List Char → List Char)
    (s : CleanupSettings) (input : List Char) :
    (compressPasses process remText remAttrs s input).2
        = (if s.remUnusedTextCode || s.remUnusualAttributes then
            [cleanupTransform remText remAttrs s input,
              cleanupTransform remText remAttrs s
                (process (cleanupTransform remText remAttrs s input))]
          else [input]) ∧
    (compressPasses process remText remAttrs s input).2.length ≤ 2 := by
  cases h1 : s.remUnusedTextCode <;> cases h2 : s.remUnusualAttributes <;>
    simp [compressPasses, cleanupTransform, h1, h2]

/-- Helper for C1: a doomed cycle is not committed. -/
theorem doomed_not_committed {s : OrchestratorState} {i : Nat}
    (h : Doomed s i) : s.phase i ≠ CyclePhase.committed := by
  rcases h with ⟨h1, _⟩ | h1 <;> simp [h1]

/-- Helper for C1: every step of the driver preserves doom — a cycle whose
token is stale (or which was already discarded) can never commit later. -/
theorem doomed_step {kind : Nat → CycleKind} {s : OrchestratorState} {i : Nat}
    (e : OrchEvent) (h : Doomed s i) : Doomed (orchStep kind s e) i := by
  have hnotidle : s.phase i ≠ CyclePhase.idle := by
    rcases h with ⟨h1, _⟩ | h1 <;> simp [h1]
  cases e with
  | start j =>
    by_cases hj : s.phase j = CyclePhase.idle
    · have hij : i ≠ j := fun hh => hnotidle (hh ▸ hj)
      rcases h with ⟨h1, _⟩ | h1
      · refine Or.inl ⟨?_, ?_⟩
        · simp [orchStep, hj, Function.update_noteq hij, sweepAborted, h1]
        · simp [orchStep, hj]
          exact fun hh => hij hh.symm
      · refine Or.inr ?_
        simp [orchStep, hj, Function.update_noteq hij, sweepAborted, h1]
    · simp [orchStep, hj]
      exact h
  | resume j =>
    by_cases hij : i = j
    · subst hij
      rcases h with ⟨h1, h2⟩ | h1
      · refine Or.inr ?_
        simp [orchStep, h1, h2, Function.update_same]
      · simp [orchStep, h1]
        exact Or.inr h1
    · have hij' : i ≠ j := hij
      rcases h with ⟨h1, h2⟩ | h1
      · by_cases hj : s.phase j = CyclePhase.afterAbort
        · by_cases hl : s.latest ≠ some j
          · exact Or.inl (by simp [orchStep, hj, hl,
              Function.update_noteq hij', h1, h2])
          · cases hk : kind j <;>
              exact Or.inl (by simp [orchStep, hj, hl, hk,
                Function.update_noteq hij', h1, h2])
        · simp [orchStep, hj]
          exact Or.inl ⟨h1, h2⟩
      · by_cases hj : s.phase j = CyclePhase.afterAbort
        · by_cases hl : s.latest ≠ some j
          · exact Or.inr (by simp [orchStep, hj, hl,
              Function.update_noteq hij', h1])
          · cases hk : kind j <;>
              exact Or.inr (by simp [orchStep, hj, hl, hk,
                Function.update_noteq hij', h1])
        · simp [orchStep, hj]
          exact Or.inr h1
  | deliver j =>
    by_cases hij : i = j
    · subst hij
      rcases h with ⟨h1, _⟩ | h1 <;> simp [orchStep, h1] <;> tauto
    · have hij' : i ≠ j := hij
      have hphase : (orchStep kind s (OrchEvent.deliver j)).phase i
          = s.phase i := by
        cases hj : s.phase j <;>
          simp [orchStep, hj,
            apply_ite (fun t : OrchestratorState => t.phase i),
            Function.update_noteq hij']
      have hlatest : (orchStep kind s (OrchEvent.deliver j)).latest
          = s.latest := by
        cases hj : s.phase j <;>
          simp [orchStep, hj,
            apply_ite (fun t : OrchestratorState => t.latest)]
      rcases h with ⟨h1, h2⟩ | h1
      · exact Or.inl ⟨by rw [hphase]; exact h1, by rw [hlatest]; exact h2⟩
      · exact Or.inr (by rw [hphase]; exact h1)

/-- Helper for C1: doom persists along any suffix of the trace. -/
theorem doomed_run {kind : Nat → CycleKind} {s : OrchestratorState} {i : Nat}
    (es : List OrchEvent) (h : Doomed s i) : Doomed (orchRun kind s es) i := by
  induction es generalizing s with
  | nil => exact h
  | cons e es ih => exact ih (doomed_step e h)

/-- Helper for C1: starting a fresh cycle dooms every in-flight cycle — the
abort sweep discards cycles with a request in flight, and the new latest
token dooms cycles still awaiting their token check. -/
theorem start_dooms {kind : Nat → CycleKind} {s : OrchestratorState}
    {i j : Nat} (hin : InFlight s i) (hj : s.phase j = CyclePhase.idle) :
    Doomed (orchStep kind s (OrchEvent.start j)) i := by
  have hij : i ≠ j := by
    intro hh
    rcases hin with h1 | h1 | h1 <;> rw [hh, hj] at h1 <;> exact absurd h1 (by decide)
  rcases hin with h1 | h1 | h1
  · refine Or.inl ⟨?_, ?_⟩
    · simp [orchStep, hj, Function.update_noteq hij, sweepAborted, h1]
    · simp [orchStep, hj]
      exact fun hh => hij hh.symm
  · refine Or.inr ?_
    simp [orchStep, hj, Function.update_noteq hij, sweepAborted, h1]
  · refine Or.inr ?_
    simp [orchStep, hj, Function.update_noteq hij, sweepAborted, h1]

/-- Helper for C1: running a concatenated trace runs the pieces in order. -/
theorem orchRun_append (kind : Nat → CycleKind) (s : OrchestratorState)
    (as bs : List OrchEvent) :
    orchRun kind s (as ++ bs) = orchRun kind (orchRun kind s as) bs := by
  induction as generalizing s with
  | nil => rfl
  | cons e es ih => exact ih (orchStep kind s e)

/-- C1.  Superseded-job guard: in every trace from the initial state, if a
cycle `i` has started and its asynchronous round trip has not settled when a
fresh cycle `j` starts, then cycle `i` never commits — its eventual result
is neither displayed nor added to the cache, no matter how the rest of the
trace unfolds. -/
theorem superseded_cycle_never_commits (kind : Nat → CycleKind)
    (es1 es2 : List OrchEvent) (i j : Nat)
    (hin : InFlight (orchRun kind orchInit es1) i)
    (hj : (orchRun kind orchInit es1).phase j = CyclePhase.idle) :
    (orchRun kind orchInit (es1 ++ OrchEvent.start j :: es2)).phase i
      ≠ CyclePhase.committed := by
  rw [orchRun_append]
  have hstep : orchRun kind (orchRun kind orchInit es1)
      (OrchEvent.start j :: es2)
      = orchRun kind
          (orchStep kind (orchRun kind orchInit es1) (OrchEvent.start j))
          es2 := rfl
  rw [hstep]
  exact doomed_not_committed (doomed_run es2 (start_dooms hin hj))

/-- Witness for C1: cycle 1 starts and issues its process request, cycle 2
starts before the worker answers; even though cycle 1's response is later
delivered, cycle 1 never commits. -/
theorem superseded_cycle_never_commits_witness :
    (orchRun (fun _ => CycleKind.missOnePass) orchInit
        ([OrchEvent.start 1, OrchEvent.resume 1]
          ++ OrchEvent.start 2
            :: [OrchEvent.resume 2, OrchEvent.deliver 1,
                OrchEvent.deliver 2])).phase 1
      ≠ CyclePhase.committed :=
  superseded_cycle_never_commits (fun _ => CycleKind.missOnePass)
    [OrchEvent.start 1, OrchEvent.resume 1]
    [OrchEvent.resume 2, OrchEvent.deliver 1, OrchEvent.deliver 2] 1 2
    (by decide) (by decide)

/-- A slider value free of the join separator (checkbox inputs impose no
constraint).  The range inputs of the settings form hold decimal number
strings, which never contain a comma. -/
def kindCommaFree : InputKind → Prop
  | .checkbox _ => True
  | .slider v => ',' ∉ v

instance (k : InputKind) : Decidable (kindCommaFree k) :=
  match k with
  | .checkbox _ => .isTrue trivial
  | .slider v => inferInstanceAs (Decidable (',' ∉ v))

/-- Two input states belonging to the same kind of form control. -/
def sameShape : InputKind → InputKind → Prop
  | .checkbox _, .checkbox _ => True
  | .slider _, .slider _ => True
  | _, _ => False

/-- Helper for C7: fingerprint pieces contain no comma. -/
theorem elem_comma_free (k : InputKind) (h : kindCommaFree k) :
    ',' ∉ fingerprintElem k := by
  cases k with
  | checkbox c => cases c <;> decide
  | slider v =>
    have hv : ',' ∉ v := h
    intro hmem
    rcases List.mem_cons.mp hmem with h1 | h1
    · exact absurd h1 (by decide)
    · rcases List.mem_append.mp h1 with h2 | h2
      · exact hv h2
      · exact absurd h2 (by decide)

/-- Helper for C7: the checkbox encoding is injective. -/
theorem numberOfBool_inj {a b : Bool} (h : numberOfBool a = numberOfBool b) :
    a = b := by
  cases a <;> cases b <;> revert h <;> decide

/-- Helper for C7: pieces of the same shape are equal only for equal input
states. -/
theorem fingerprintElem_inj {k1 k2 : InputKind} (hs : sameShape k1 k2)
    (h : fingerprintElem k1 = fingerprintElem k2) : k1 = k2 := by
  cases k1 with
  | checkbox a =>
    cases k2 with
    | checkbox b => rw [numberOfBool_inj h]
    | slider v => exact absurd hs (by simp [sameShape])
  | slider v1 =>
    cases k2 with
    | checkbox b => exact absurd hs (by simp [sameShape])
    | slider v2 =>
      have h' : v1 ++ ['|'] = v2 ++ ['|'] := by
        simpa [fingerprintElem] using h
      rw [List.append_cancel_right h']

/-- Helper for C7: splitting a comma join at the first separator is
unambiguous when the leading pieces are comma-free. -/
theorem append_comma_inj :
    ∀ x y r1 r2 : List Char, ',' ∉ x → ',' ∉ y →
      x ++ ',' :: r1 = y ++ ',' :: r2 → x = y ∧ r1 = r2 := by
  intro x
  induction x with
  | nil =>
    intro y r1 r2 _ hy h
    cases y with
    | nil => simpa using h
    | cons d y' =>
      simp only [List.nil_append, List.cons_append, List.cons.injEq] at h
      obtain ⟨hd, -⟩ := h
      subst hd
      exact absurd (List.mem_cons_self _ _) hy
  | cons c x' ih =>
    intro y r1 r2 hx hy h
    cases y with
    | nil =>
      simp only [List.cons_append, List.nil_append, List.cons.injEq] at h
      obtain ⟨hc, -⟩ := h
      subst hc
      exact absurd (List.mem_cons_self _ _) hx
    | cons d y' =>
      simp only [List.cons_append, List.cons.injEq] at h
      obtain ⟨hcd, hrest⟩ := h
      have hx' : ',' ∉ x' := fun hm => hx (List.mem_cons_of_mem _ hm)
      have hy' : ',' ∉ y' := fun hm => hy (List.mem_cons_of_mem _ hm)
      obtain ⟨he, hr⟩ := ih y' r1 r2 hx' hy' hrest
      exact ⟨by rw [hcd, he], hr⟩

/-- Helper for C7: the comma join is injective on lists of comma-free pieces
of equal length. -/
theorem joinComma_inj :
    ∀ l1 l2 : List (List Char), l1.length = l2.length →
      (∀ x ∈ l1, ',' ∉ x) → (∀ x ∈ l2, ',' ∉ x) →
      joinComma l1 = joinComma l2 → l1 = l2 := by
  intro l1
  induction l1 with
  | nil =>
    intro l2 hlen _ _ _
    cases l2 with
    | nil => rfl
    | cons y ys => simp at hlen
  | cons x xs ih =>
    intro l2 hlen h1 h2 h
    cases l2 with
    | nil => simp at hlen
    | cons y ys =>
      cases xs with
      | nil =>
        cases ys with
        | nil => simpa [joinComma] using h
        | cons y2 ys' => simp at hlen
      | cons x2 xs' =>
        cases ys with
        | nil => simp at hlen
        | cons y2 ys' =>
          have hx : ',' ∉ x := h1 x (List.mem_cons_self x _)
          have hy : ',' ∉ y := h2 y (List.mem_cons_self y _)
          have hh : x ++ ',' :: joinComma (x2 :: xs')
              = y ++ ',' :: joinComma (y2 :: ys') := by
            simpa [joinComma] using h
          obtain ⟨hxy, hrest⟩ := append_comma_inj x y _ _ hx hy hh
          have htail := ih (y2 :: ys') (by simpa using hlen)
            (fun z hz => h1 z (List.mem_cons_of_mem _ hz))
            (fun z hz => h2 z (List.mem_cons_of_mem _ hz)) hrest
          rw [hxy, htail]

/-- Helper for C7: every piece of a fingerprint built from comma-free slider
values is comma-free. -/
theorem elems_comma_free (g : List GlobalInput) (p : List PluginInput)
    (hv : ∀ x ∈ g, kindCommaFree x.kind) :
    ∀ x ∈ fingerprintElems g p, ',' ∉ x := by
  intro x hx
  simp only [fingerprintElems] at hx
  rcases List.mem_append.mp hx with hx | hx
  · obtain ⟨a, ha, hax⟩ := List.mem_filterMap.mp hx
    by_cases hskip : a.name = "gzip" ∨ a.name = "original"
    · simp [hskip] at hax
    · simp only [if_neg hskip, Option.some.injEq] at hax
      rw [← hax]
      exact elem_comma_free _ (hv a ha)
  · obtain ⟨a, ha, hax⟩ := List.mem_map.mp hx
    rw [← hax]
    cases a.checked <;> decide

/-- Helper for C7 and C8: name-matched input lists push the same number of
global fingerprint pieces. -/
theorem globalElems_length (g1 g2 : List GlobalInput)
    (hs : List.Forall₂ (fun a b => a.name = b.name) g1 g2) :
    (g1.filterMap fun g =>
      if g.name = "gzip" ∨ g.name = "original" then none
      else some (fingerprintElem g.kind)).length
      = (g2.filterMap fun g =>
        if g.name = "gzip" ∨ g.name = "original" then none
        else some (fingerprintElem g.kind)).length := by
  induction hs with
  | nil => rfl
  | @cons a b as bs hab hrest ih =>
    by_cases hskip : a.name = "gzip" ∨ a.name = "original"
    · have hskip' : b.name = "gzip" ∨ b.name = "original" := hab ▸ hskip
      simp [List.filterMap_cons, hskip, hskip', ih]
    · have hskip' : ¬(b.name = "gzip" ∨ b.name = "original") := hab ▸ hskip
      simp [List.filterMap_cons, hskip, hskip', ih]

/-- Helper for C7: equal global fingerprint pieces force equal input states
on every non-presentation input. -/
theorem globalElems_inj (g1 g2 : List GlobalInput)
    (hs : List.Forall₂ (fun a b => a.name = b.name ∧ sameShape a.kind b.kind)
      g1 g2)
    (h : (g1.filterMap fun g =>
        if g.name = "gzip" ∨ g.name = "original" then none
        else some (fingerprintElem g.kind))
      = (g2.filterMap fun g =>
        if g.name = "gzip" ∨ g.name = "original" then none
        else some (fingerprintElem g.kind))) :
    List.Forall₂ (fun a b =>
      ¬(a.name = "gzip" ∨ a.name = "original") → a.kind = b.kind) g1 g2 := by
  induction hs with
  | nil => exact List.Forall₂.nil
  | @cons a b as bs hab hrest ih =>
    by_cases hskip : a.name = "gzip" ∨ a.name = "original"
    · have hskip' : b.name = "gzip" ∨ b.name = "original" := hab.1 ▸ hskip
      rw [List.filterMap_cons, List.filterMap_cons, if_pos hskip,
        if_pos hskip'] at h
      exact List.Forall₂.cons (fun hn => absurd hskip hn) (ih h)
    · have hskip' : ¬(b.name = "gzip" ∨ b.name = "original") := hab.1 ▸ hskip
      rw [List.filterMap_cons, List.filterMap_cons, if_neg hskip,
        if_neg hskip'] at h
      simp only [List.cons.injEq] at h
      exact List.Forall₂.cons (fun _ => fingerprintElem_inj hab.2 h.1) (ih h.2)

/-- Helper for C7: equal plugin fingerprint pieces force equal toggles. -/
theorem pluginElems_inj :
    ∀ p1 p2 : List PluginInput, p1.length = p2.length →
      p1.map (fun p => numberOfBool p.checked)
        = p2.map (fun p => numberOfBool p.checked) →
      List.Forall₂ (fun p q => p.checked = q.checked) p1 p2 := by
  intro p1
  induction p1 with
  | nil =>
    intro p2 hlen _
    cases p2 with
    | nil => exact List.Forall₂.nil
    | cons q qs => simp at hlen
  | cons p ps ih =>
    intro p2 hlen h
    cases p2 with
    | nil => simp at hlen
    | cons q qs =>
      simp only [List.map_cons, List.cons.injEq] at h
      exact List.Forall₂.cons (numberOfBool_inj h.1)
        (ih qs (by simpa using hlen) h.2)

/-- C7.  Fingerprint injectivity: over two settings states read from the same
form (name- and shape-matched input lists, slider values comma-free as range
values are), equal fingerprints force agreement on every compression-
affecting option — every global input not named `gzip`/`original` and every
plugin toggle.  Contrapositively, settings that differ in such an option have
different fingerprints. -/
theorem fingerprint_injective (g1 g2 : List GlobalInput)
    (p1 p2 : List PluginInput)
    (hs : List.Forall₂ (fun a b => a.name = b.name ∧ sameShape a.kind b.kind)
      g1 g2)
    (hv1 : ∀ x ∈ g1, kindCommaFree x.kind)
    (hv2 : ∀ x ∈ g2, kindCommaFree x.kind)
    (hp : p1.length = p2.length)
    (heq : fingerprint g1 p1 = fingerprint g2 p2) :
    List.Forall₂ (fun a b =>
      ¬(a.name = "gzip" ∨ a.name = "original") → a.kind = b.kind) g1 g2 ∧
    List.Forall₂ (fun p q => p.checked = q.checked) p1 p2 := by
  have hnames : List.Forall₂ (fun (a b : GlobalInput) => a.name = b.name)
      g1 g2 := hs.imp fun a b h => h.1
  have hglen := globalElems_length g1 g2 hnames
  have hlen : (fingerprintElems g1 p1).length
      = (fingerprintElems g2 p2).length := by
    simp [fingerprintElems, hglen, hp]
  have helems := joinComma_inj _ _ hlen (elems_comma_free g1 p1 hv1)
    (elems_comma_free g2 p2 hv2) heq
  simp only [fingerprintElems] at helems
  obtain ⟨hgl, hpl⟩ := List.append_inj helems hglen
  exact ⟨globalElems_inj g1 g2 hs hgl, pluginElems_inj p1 p2 hp hpl⟩

/-- Witness for C7: a concrete pair of identical settings states, for which
equal fingerprints yield agreement on the plugin toggle. -/
theorem fingerprint_injective_witness :
    List.Forall₂ (fun p q : PluginInput => p.checked = q.checked)
      [⟨"removeDoctype", true⟩] [⟨"removeDoctype", true⟩] :=
  (fingerprint_injective
    [⟨"multipass", .checkbox true⟩] [⟨"multipass", .checkbox true⟩]
    [⟨"removeDoctype", true⟩] [⟨"removeDoctype", true⟩]
    (List.Forall₂.cons ⟨rfl, trivial⟩ List.Forall₂.nil)
    (by decide) (by decide) rfl rfl).2

/-- C8.  Fingerprint idempotence and presentation-insensitivity: recomputing
the fingerprint from an unchanged state yields the identical string, and two
states that differ only in the `gzip` / `original` inputs yield identical
fingerprints. -/
theorem fingerprint_presentation_blind (g1 g2 : List GlobalInput)
    (p : List PluginInput)
    (hg : List.Forall₂ (fun a b => a.name = b.name ∧
      ((a.name = "gzip" ∨ a.name = "original") ∨ a.kind = b.kind)) g1 g2) :
    fingerprint g1 p = fingerprint g1 p ∧
    fingerprint g1 p = fingerprint g2 p := by
  refine ⟨rfl, ?_⟩
  unfold fingerprint fingerprintElems
  congr 1
  congr 1
  induction hg with
  | nil => rfl
  | @cons a b as bs hab hrest ih =>
    obtain ⟨hname, hres⟩ := hab
    by_cases hskip : a.name = "gzip" ∨ a.name = "original"
    · have hskip' : b.name = "gzip" ∨ b.name = "original" := hname ▸ hskip
      simp [List.filterMap_cons, hskip, hskip', ih]
    · have hskip' : ¬(b.name = "gzip" ∨ b.name = "original") := hname ▸ hskip
      rcases hres with hres | hres
      · exact absurd hres hskip
      · simp [List.filterMap_cons, hskip, hskip', hres, ih]

/-- Witness for C8: flipping only the `gzip` checkbox leaves the fingerprint
unchanged. -/
theorem fingerprint_presentation_blind_witness :
    fingerprint [⟨"gzip", .checkbox true⟩, ⟨"multipass", .checkbox false⟩]
        [⟨"removeDoctype", true⟩]
      = fingerprint
        [⟨"gzip", .checkbox false⟩, ⟨"multipass", .checkbox false⟩]
        [⟨"removeDoctype", true⟩] :=
  (fingerprint_presentation_blind _ _ _
    (List.Forall₂.cons ⟨rfl, Or.inl (Or.inl rfl)⟩
      (List.Forall₂.cons ⟨rfl, Or.inr rfl⟩ List.Forall₂.nil))).2

end Svgomg
